import Mathlib

/-!
Verification of the animated table-of-contents core: the TOC tree flattener,
the SVG path-geometry engine (`generatePath` / `getPointAtLength` from
`animated-toc.tsx`, identical to `computePathGeometry` /
`interpolatePointOnPath` in the `toc-nav` variant), the active-section
tracker (`useActiveSection`, the variant with the end-of-document override),
and the animator's active-index lookup.

Numeric values are modelled as real numbers (the geometry uses a square
root) and, for the tracker, as rationals (no irrational arithmetic there).
-/

/-- Row geometry constant: fixed row height (`ITEM_HEIGHT = 32`). -/
def ITEM_HEIGHT : ℝ := 32

/-- Fixed width of the SVG path column (`PATH_WIDTH = 16`). -/
def PATH_WIDTH : ℝ := 16

/-- Horizontal indent per nesting level (`INDENT_STEP = 12`). -/
def INDENT_STEP : ℝ := 12

/-- Vertical inset carving the diagonal transitions (`PADDING = 8`). -/
def PADDING : ℝ := 8

/-- A TOC tree node (`TocItem` in the source).  The optional `children`
array is modelled as a list; an absent `children` field behaves exactly like
an empty list in every use site (`item.children ? … : []`). -/
inductive TocItem where
  | mk (id : String) (title : String) (children : List TocItem)

def TocItem.id : TocItem → String
  | .mk i _ _ => i

def TocItem.title : TocItem → String
  | .mk _ t _ => t

def TocItem.children : TocItem → List TocItem
  | .mk _ _ cs => cs

/-- A flattened TOC entry (`FlatTocItem` in the source). -/
structure FlatTocItem where
  id : String
  title : String
  level : ℕ
deriving DecidableEq

/-- `flattenItems(items, level)`: pre-order flattening.  The source builds,
for each node, the array `[⟨id, title, level⟩, ...flattenItems(children,
level+1)]` and flat-maps over the input list; that flat map is exactly this
cons recursion. -/
def flattenItems : List TocItem → ℕ → List FlatTocItem
  | [], _ => []
  | .mk i t cs :: rest, level =>
      ⟨i, t, level⟩ ::
        (flattenItems cs (level + 1) ++ flattenItems rest level)

/-- A sample point of the generated path: coordinates plus the cumulative
arc length at that point (`{x, y, length}` in the source). -/
structure PathPoint where
  x : ℝ
  y : ℝ
  length : ℝ
deriving Inhabited

/-- One command of the SVG path description: the source pushes the strings
`M{x} {y}` and `L{x} {y}` into `segments`. -/
inductive PathSeg where
  | move (x y : ℝ)
  | line (x y : ℝ)

/-- Result record of `generatePath` (`PathData` in the source); `d` is the
segment list whose rendering joins to the SVG string. -/
structure PathData where
  d : List PathSeg
  length : ℝ
  itemLengths : List ℝ
  points : List PathPoint

/-- Loop state / output of the `for` loop inside `generatePath`. -/
structure GenResult where
  segments : List PathSeg
  points : List PathPoint
  itemLengths : List ℝ
  length : ℝ

/-- The body of `generatePath`'s loop, one recursive step per item.  The
loop index `i`, the running `length` and the previous point `prevX, prevY`
are threaded through exactly as in the source; each iteration appends two
path segments, three sample points and one anchor length. -/
noncomputable def generatePathGo (minLevel : ℕ) :
    List FlatTocItem → ℕ → ℝ → ℝ → ℝ → GenResult
  | [], _, length, _, _ => ⟨[], [], [], length⟩
  | item :: rest, i, length, prevX, prevY =>
      let indent : ℝ := ((item.level : ℝ) - (minLevel : ℝ)) * INDENT_STEP
      let x : ℝ := 1 + indent
      let top : ℝ := (i : ℝ) * ITEM_HEIGHT + PADDING
      let bottom : ℝ := ((i : ℝ) + 1) * ITEM_HEIGHT - PADDING
      let center : ℝ := (top + bottom) / 2
      -- `M x top` on the first item, otherwise the diagonal `L x top`
      -- whose Euclidean length is accumulated.
      let lengthAtTop : ℝ :=
        if i = 0 then length
        else length + Real.sqrt ((x - prevX) * (x - prevX) + (top - prevY) * (top - prevY))
      let seg0 : PathSeg := if i = 0 then .move x top else .line x top
      let toCenter : ℝ := center - top
      let toBottom : ℝ := bottom - top
      let r := generatePathGo minLevel rest (i + 1) (lengthAtTop + toBottom) x bottom
      ⟨seg0 :: .line x bottom :: r.segments,
       ⟨x, top, lengthAtTop⟩ :: ⟨x, center, lengthAtTop + toCenter⟩ ::
         ⟨x, bottom, lengthAtTop + toBottom⟩ :: r.points,
       (lengthAtTop + toCenter) :: r.itemLengths,
       r.length⟩

/-- `generatePath(items, minLevel)` from the source: runs the loop from
index 0 with zero accumulated length and zero previous point. -/
noncomputable def generatePath (items : List FlatTocItem) (minLevel : ℕ) : PathData :=
  let r := generatePathGo minLevel items 0 0 0 0
  ⟨r.segments, r.length, r.itemLengths, r.points⟩

/-- The scan loop of `getPointAtLength` (`for i = 1; …`), carrying the
previous sample point; falls through to the last point of the list. -/
noncomputable def getPointAtLengthGo (targetLength : ℝ) :
    PathPoint → List PathPoint → ℝ × ℝ
  | prev, [] => (prev.x, prev.y)
  | prev, curr :: rest =>
      if targetLength ≤ curr.length then
        let segmentLength := curr.length - prev.length
        let t :=
          if segmentLength > 0 then (targetLength - prev.length) / segmentLength else 0
        (prev.x + (curr.x - prev.x) * t, prev.y + (curr.y - prev.y) * t)
      else
        getPointAtLengthGo targetLength curr rest

/-- `getPointAtLength(points, targetLength)` from the source. -/
noncomputable def getPointAtLength (points : List PathPoint) (targetLength : ℝ) : ℝ × ℝ :=
  match points with
  | [] => (0, 0)
  | p :: rest =>
      if targetLength ≤ 0 then (p.x, p.y)
      else getPointAtLengthGo targetLength p rest

/-- The animator's active-index lookup (`activeIndex` memo in
`AnimatedToc`): a falsy `activeId` (absent or empty string) and a
`findIndex` miss both resolve to index 0. -/
def activeIndexOf (flatItems : List FlatTocItem) (activeId : Option String) : ℕ :=
  match activeId with
  | none => 0
  | some aid =>
      if aid = "" then 0
      else
        match flatItems.findIdx? (fun item => item.id == aid) with
        | some idx => idx
        | none => 0

/-- Last element of a list, with a default for the empty list (models the
Javascript indexing `xs[xs.length - 1]`, and is used to state "the last
sample point" without partial indexing). -/
def lastD : List α → α → α
  | [], d => d
  | a :: l, _ => lastD l a

/-- What the tracker reads from an `IntersectionObserverEntry`:
`isIntersecting`, `boundingClientRect.top` and `target.id`. -/
structure ObservedEntry where
  isIntersecting : Bool
  top : ℚ
  targetId : String

/-- The tracker's scroll handler (`handleScroll` in the `use-active-section`
variant with the end-of-document override): when the viewport bottom is
within 50px of the document bottom, select the last known section id
(`sectionIds[sectionIds.length - 1]`; the handler is only installed for a
non-empty id list, an out-of-range index is modelled by `""`). -/
def handleScroll (sectionIds : List String)
    (innerHeight scrollY scrollHeight : ℚ) (activeId : String) : String :=
  if scrollHeight - 50 ≤ innerHeight + scrollY then lastD sectionIds ""
  else activeId

/-- First element of a stable sort of `e :: rest` by ascending `top`:
the earliest entry attaining the minimal `top`.  The source sorts
`visibleEntries` with the comparator `a.top - b.top` (a stable sort) and
takes `sorted[0]`. -/
def pickTopmost (e : ObservedEntry) (rest : List ObservedEntry) : ObservedEntry :=
  rest.foldl (fun best cand => if cand.top < best.top then cand else best) e

/-- The tracker's intersection-observer callback: returns early (retaining
the active id) when scrolled to the bottom, otherwise selects the topmost
intersecting entry, or retains the active id when none intersect. -/
def observerCallback (entries : List ObservedEntry)
    (innerHeight scrollY scrollHeight : ℚ) (activeId : String) : String :=
  if scrollHeight - 50 ≤ innerHeight + scrollY then activeId
  else
    match entries.filter (fun entry => entry.isIntersecting) with
    | [] => activeId
    | e :: rest => (pickTopmost e rest).targetId

/-- The concrete 5-item single-depth list used by the numeric claim about
the path geometry. -/
def items5 : List FlatTocItem :=
  [⟨"s0", "S0", 0⟩, ⟨"s1", "S1", 0⟩, ⟨"s2", "S2", 0⟩, ⟨"s3", "S3", 0⟩, ⟨"s4", "S4", 0⟩]

/- ### Helper lemmas -/

theorem lastD_cons (a : α) (l : List α) (d : α) : lastD (a :: l) d = lastD l a := rfl

theorem lastD_congr (l : List α) (h : l ≠ []) (d₁ d₂ : α) : lastD l d₁ = lastD l d₂ := by
  cases l with
  | nil => exact absurd rfl h
  | cons a t => rfl

theorem lastD_append_singleton (l : List α) (a d : α) : lastD (l ++ [a]) d = a := by
  induction l generalizing d with
  | nil => rfl
  | cons b t ih => simpa [lastD_cons] using ih b

theorem lastD_mem (l : List α) (d : α) : l ≠ [] → lastD l d ∈ l := by
  induction l generalizing d with
  | nil => intro h; exact absurd rfl h
  | cons a t ih =>
    intro _
    cases t with
    | nil => simp [lastD]
    | cons b t' => exact List.mem_cons_of_mem a (ih a (by simp))

theorem sqrt_term_nonneg (a b : ℝ) : 0 ≤ Real.sqrt (a * a + b * b) :=
  Real.sqrt_nonneg _

theorem sqrt_term_ge (a b : ℝ) (hb : 0 ≤ b) : b ≤ Real.sqrt (a * a + b * b) := by
  have h1 : b * b ≤ a * a + b * b := by nlinarith [mul_self_nonneg a]
  have h2 := Real.sqrt_le_sqrt h1
  rwa [Real.sqrt_mul_self hb] at h2

/- ### Structural lemmas about the path-geometry loop -/

/-- Every sample-point length produced by the loop is at least the incoming
accumulated length. -/
theorem go_points_le (m : ℕ) (items : List FlatTocItem) :
    ∀ (i : ℕ) (len pX pY : ℝ),
    ∀ p ∈ (generatePathGo m items i len pX pY).points, len ≤ p.length := by
  induction items with
  | nil =>
    intro i len pX pY p hp
    simp [generatePathGo] at hp
  | cons item rest ih =>
    intro i len pX pY p hp
    simp only [generatePathGo, ITEM_HEIGHT, PADDING, INDENT_STEP, List.mem_cons] at hp
    rcases hp with rfl | rfl | rfl | h
    · dsimp only
      split_ifs with hi
      · exact le_refl _
      · simp only [le_add_iff_nonneg_right]
        exact Real.sqrt_nonneg _
    · dsimp only
      split_ifs with hi
      · linarith
      · have := Real.sqrt_nonneg
          ((1 + ((item.level : ℝ) - (m : ℝ)) * 12 - pX) * (1 + ((item.level : ℝ) - (m : ℝ)) * 12 - pX) +
            ((i : ℝ) * 32 + 8 - pY) * ((i : ℝ) * 32 + 8 - pY))
        linarith
    · dsimp only
      split_ifs with hi
      · linarith
      · have := Real.sqrt_nonneg
          ((1 + ((item.level : ℝ) - (m : ℝ)) * 12 - pX) * (1 + ((item.level : ℝ) - (m : ℝ)) * 12 - pX) +
            ((i : ℝ) * 32 + 8 - pY) * ((i : ℝ) * 32 + 8 - pY))
        linarith
    · have hrec := ih (i + 1) _ _ _ p h
      refine le_trans ?_ hrec
      split_ifs with hi
      · linarith
      · have := Real.sqrt_nonneg
          ((1 + ((item.level : ℝ) - (m : ℝ)) * 12 - pX) * (1 + ((item.level : ℝ) - (m : ℝ)) * 12 - pX) +
            ((i : ℝ) * 32 + 8 - pY) * ((i : ℝ) * 32 + 8 - pY))
        linarith

/-- The returned total length is the cumulative length of the last sample
point (or the incoming length when there is no sample point). -/
theorem go_length_lastD (m : ℕ) (items : List FlatTocItem) :
    ∀ (i : ℕ) (len pX pY : ℝ),
    (generatePathGo m items i len pX pY).length =
      lastD ((generatePathGo m items i len pX pY).points.map PathPoint.length) len := by
  induction items with
  | nil =>
    intro i len pX pY
    simp [generatePathGo, lastD]
  | cons item rest ih =>
    intro i len pX pY
    simp only [generatePathGo, List.map_cons, lastD_cons]
    exact ih (i + 1) _ _ _

/-- The loop emits three sample points and one anchor length per item. -/
theorem go_counts (m : ℕ) (items : List FlatTocItem) :
    ∀ (i : ℕ) (len pX pY : ℝ),
    (generatePathGo m items i len pX pY).points.length = 3 * items.length ∧
      (generatePathGo m items i len pX pY).itemLengths.length = items.length := by
  induction items with
  | nil =>
    intro i len pX pY
    simp [generatePathGo]
  | cons item rest ih =>
    intro i len pX pY
    have h := ih (i + 1)
    simp only [generatePathGo, List.length_cons]
    constructor
    · rw [(h _ _ _).1]
      ring
    · rw [(h _ _ _).2]

/-- Core invariant of the loop, assuming the previous point is the bottom of
the preceding row (`pY = i·32 − 8` for `i ≠ 0`, as holds along the real call
chain): sample-point lengths are strictly increasing, anchor lengths grow by
at least 32 per item, and on a non-initial call everything lies at least one
diagonal (16) past the incoming length. -/
theorem go_main (m : ℕ) (items : List FlatTocItem) :
    ∀ (i : ℕ) (len pX pY : ℝ),
    (i ≠ 0 → pY = (i : ℝ) * 32 - 8) →
    (List.Pairwise (· < ·)
        ((generatePathGo m items i len pX pY).points.map PathPoint.length) ∧
      (i ≠ 0 → ∀ p ∈ (generatePathGo m items i len pX pY).points,
        len + 16 ≤ p.length)) ∧
    (List.Chain' (fun a b => a + 32 ≤ b)
        (generatePathGo m items i len pX pY).itemLengths ∧
      (i ≠ 0 → ∀ a ∈ (generatePathGo m items i len pX pY).itemLengths,
        len + 24 ≤ a)) := by
  induction items with
  | nil =>
    intro i len pX pY H
    simp [generatePathGo]
  | cons item rest ih =>
    intro i len pX pY H
    simp only [generatePathGo, ITEM_HEIGHT, PADDING, INDENT_STEP]
    generalize hLT : (if i = 0 then len
      else len + Real.sqrt ((1 + ((item.level : ℝ) - (m : ℝ)) * 12 - pX) *
        (1 + ((item.level : ℝ) - (m : ℝ)) * 12 - pX) +
        ((i : ℝ) * 32 + 8 - pY) * ((i : ℝ) * 32 + 8 - pY))) = LT
    have hLT0 : len ≤ LT := by
      rw [← hLT]
      split_ifs with hi
      · exact le_refl len
      · linarith [Real.sqrt_nonneg ((1 + ((item.level : ℝ) - (m : ℝ)) * 12 - pX) *
          (1 + ((item.level : ℝ) - (m : ℝ)) * 12 - pX) +
          ((i : ℝ) * 32 + 8 - pY) * ((i : ℝ) * 32 + 8 - pY))]
    have hLT16 : i ≠ 0 → len + 16 ≤ LT := by
      intro hi
      rw [← hLT, if_neg hi]
      have hdy : (i : ℝ) * 32 + 8 - pY = 16 := by rw [H hi]; ring
      rw [hdy]
      have := sqrt_term_ge (1 + ((item.level : ℝ) - (m : ℝ)) * 12 - pX) 16 (by norm_num)
      linarith
    have hrec := ih (i + 1)
      (LT + (((i : ℝ) + 1) * 32 - 8 - ((i : ℝ) * 32 + 8)))
      (1 + ((item.level : ℝ) - (m : ℝ)) * 12)
      (((i : ℝ) + 1) * 32 - 8)
      (by intro _; push_cast; ring)
    obtain ⟨⟨hpw', hbdP'⟩, ⟨hch', hbdI'⟩⟩ := hrec
    have hbdP := hbdP' (Nat.succ_ne_zero i)
    have hbdI := hbdI' (Nat.succ_ne_zero i)
    refine ⟨⟨?_, ?_⟩, ?_, ?_⟩
    · rw [List.map_cons, List.map_cons, List.map_cons]
      refine List.Pairwise.cons ?_ (List.Pairwise.cons ?_ (List.Pairwise.cons ?_ hpw'))
      · intro b hb
        rcases List.mem_cons.mp hb with rfl | hb'
        · dsimp only; linarith
        · rcases List.mem_cons.mp hb' with rfl | hb''
          · dsimp only; linarith
          · obtain ⟨p, hp, rfl⟩ := List.mem_map.mp hb''
            have := hbdP p hp
            dsimp only
            linarith
      · intro b hb
        rcases List.mem_cons.mp hb with rfl | hb'
        · dsimp only; linarith
        · obtain ⟨p, hp, rfl⟩ := List.mem_map.mp hb'
          have := hbdP p hp
          dsimp only
          linarith
      · intro b hb
        obtain ⟨p, hp, rfl⟩ := List.mem_map.mp hb
        have := hbdP p hp
        dsimp only
        linarith
    · intro hi p hp
      rcases List.mem_cons.mp hp with rfl | hp'
      · dsimp only
        exact hLT16 hi
      · rcases List.mem_cons.mp hp' with rfl | hp''
        · dsimp only
          have := hLT16 hi
          linarith
        · rcases List.mem_cons.mp hp'' with rfl | hp3
          · dsimp only
            have := hLT16 hi
            linarith
          · have := hbdP p hp3
            have := hLT16 hi
            linarith
    · refine List.chain'_cons'.mpr ⟨?_, hch'⟩
      intro b hb
      have hbmem := List.mem_of_mem_head? hb
      have := hbdI b hbmem
      linarith
    · intro hi a ha
      rcases List.mem_cons.mp ha with rfl | ha'
      · have := hLT16 hi
        linarith
      · have := hbdI a ha'
        linarith

/-- The running length never decreases across the whole loop. -/
theorem go_len_le_fin (m : ℕ) (items : List FlatTocItem) :
    ∀ (i : ℕ) (len pX pY : ℝ),
    len ≤ (generatePathGo m items i len pX pY).length := by
  induction items with
  | nil =>
    intro i len pX pY
    simp [generatePathGo]
  | cons item rest ih =>
    intro i len pX pY
    simp only [generatePathGo, ITEM_HEIGHT, PADDING, INDENT_STEP]
    generalize hLT : (if i = 0 then len
      else len + Real.sqrt ((1 + ((item.level : ℝ) - (m : ℝ)) * 12 - pX) *
        (1 + ((item.level : ℝ) - (m : ℝ)) * 12 - pX) +
        ((i : ℝ) * 32 + 8 - pY) * ((i : ℝ) * 32 + 8 - pY))) = LT
    have hLT0 : len ≤ LT := by
      rw [← hLT]
      split_ifs with hi
      · exact le_refl len
      · linarith [Real.sqrt_nonneg ((1 + ((item.level : ℝ) - (m : ℝ)) * 12 - pX) *
          (1 + ((item.level : ℝ) - (m : ℝ)) * 12 - pX) +
          ((i : ℝ) * 32 + 8 - pY) * ((i : ℝ) * 32 + 8 - pY))]
    have := ih (i + 1)
      (LT + (((i : ℝ) + 1) * 32 - 8 - ((i : ℝ) * 32 + 8)))
      (1 + ((item.level : ℝ) - (m : ℝ)) * 12)
      (((i : ℝ) + 1) * 32 - 8)
    linarith

/-- On a non-empty item list the total length exceeds the incoming length by
at least one full item (16). -/
theorem go_fin_ge (m : ℕ) (item : FlatTocItem) (rest : List FlatTocItem)
    (i : ℕ) (len pX pY : ℝ) :
    len + 16 ≤ (generatePathGo m (item :: rest) i len pX pY).length := by
  simp only [generatePathGo, ITEM_HEIGHT, PADDING, INDENT_STEP]
  generalize hLT : (if i = 0 then len
    else len + Real.sqrt ((1 + ((item.level : ℝ) - (m : ℝ)) * 12 - pX) *
      (1 + ((item.level : ℝ) - (m : ℝ)) * 12 - pX) +
      ((i : ℝ) * 32 + 8 - pY) * ((i : ℝ) * 32 + 8 - pY))) = LT
  have hLT0 : len ≤ LT := by
    rw [← hLT]
    split_ifs with hi
    · exact le_refl len
    · linarith [Real.sqrt_nonneg ((1 + ((item.level : ℝ) - (m : ℝ)) * 12 - pX) *
        (1 + ((item.level : ℝ) - (m : ℝ)) * 12 - pX) +
        ((i : ℝ) * 32 + 8 - pY) * ((i : ℝ) * 32 + 8 - pY))]
  have := go_len_le_fin m rest (i + 1)
    (LT + (((i : ℝ) + 1) * 32 - 8 - ((i : ℝ) * 32 + 8)))
    (1 + ((item.level : ℝ) - (m : ℝ)) * 12)
    (((i : ℝ) + 1) * 32 - 8)
  linarith

/-- Anchor decomposition: for every index `j`, the sample-point list splits
around item `j`'s top and center points; the center point carries item `j`'s
anchor length (its top length plus 8), sits at the item's x offset and
vertical center, and every earlier sample is no longer than the top point. -/
theorem go_anchor (m : ℕ) (items : List FlatTocItem) :
    ∀ (i : ℕ) (len pX pY : ℝ) (j : ℕ) (hj : j < items.length),
    ∃ (l1 l2 : List PathPoint) (topPt cenPt : PathPoint),
      (generatePathGo m items i len pX pY).points = l1 ++ topPt :: cenPt :: l2 ∧
      (∀ q ∈ l1, q.length ≤ topPt.length) ∧
      len ≤ topPt.length ∧
      cenPt.length = topPt.length + 8 ∧
      cenPt.x = 1 + (((items.get ⟨j, hj⟩).level : ℝ) - (m : ℝ)) * 12 ∧
      cenPt.y = ((i + j : ℕ) : ℝ) * 32 + 16 ∧
      (generatePathGo m items i len pX pY).itemLengths.getD j 0 = cenPt.length := by
  induction items with
  | nil =>
    intro i len pX pY j hj
    simp at hj
  | cons item rest ih =>
    intro i len pX pY j hj
    simp only [generatePathGo, ITEM_HEIGHT, PADDING, INDENT_STEP]
    generalize hLT : (if i = 0 then len
      else len + Real.sqrt ((1 + ((item.level : ℝ) - (m : ℝ)) * 12 - pX) *
        (1 + ((item.level : ℝ) - (m : ℝ)) * 12 - pX) +
        ((i : ℝ) * 32 + 8 - pY) * ((i : ℝ) * 32 + 8 - pY))) = LT
    have hLT0 : len ≤ LT := by
      rw [← hLT]
      split_ifs with hi
      · exact le_refl len
      · linarith [Real.sqrt_nonneg ((1 + ((item.level : ℝ) - (m : ℝ)) * 12 - pX) *
          (1 + ((item.level : ℝ) - (m : ℝ)) * 12 - pX) +
          ((i : ℝ) * 32 + 8 - pY) * ((i : ℝ) * 32 + 8 - pY))]
    cases j with
    | zero =>
      refine ⟨[],
        (⟨1 + ((item.level : ℝ) - (m : ℝ)) * 12, ((i : ℝ) + 1) * 32 - 8,
           LT + (((i : ℝ) + 1) * 32 - 8 - ((i : ℝ) * 32 + 8))⟩ : PathPoint) ::
          (generatePathGo m rest (i + 1)
            (LT + (((i : ℝ) + 1) * 32 - 8 - ((i : ℝ) * 32 + 8)))
            (1 + ((item.level : ℝ) - (m : ℝ)) * 12)
            (((i : ℝ) + 1) * 32 - 8)).points,
        ⟨1 + ((item.level : ℝ) - (m : ℝ)) * 12, (i : ℝ) * 32 + 8, LT⟩,
        ⟨1 + ((item.level : ℝ) - (m : ℝ)) * 12,
          ((i : ℝ) * 32 + 8 + (((i : ℝ) + 1) * 32 - 8)) / 2,
          LT + (((i : ℝ) * 32 + 8 + (((i : ℝ) + 1) * 32 - 8)) / 2 - ((i : ℝ) * 32 + 8))⟩,
        ?_, ?_, ?_, ?_, ?_, ?_, ?_⟩
      · rw [List.nil_append]
      · intro q hq
        simp at hq
      · exact hLT0
      · dsimp only
        ring
      · dsimp only
        rfl
      · dsimp only
        push_cast
        ring
      · dsimp only
        rfl
    | succ j' =>
      have hj' : j' < rest.length := by
        simpa using Nat.lt_of_succ_lt_succ hj
      obtain ⟨l1, l2, topPt, cenPt, hpts, hbd, hlen, hc8, hcx, hcy, hils⟩ :=
        ih (i + 1)
          (LT + (((i : ℝ) + 1) * 32 - 8 - ((i : ℝ) * 32 + 8)))
          (1 + ((item.level : ℝ) - (m : ℝ)) * 12)
          (((i : ℝ) + 1) * 32 - 8) j' hj'
      refine ⟨(⟨1 + ((item.level : ℝ) - (m : ℝ)) * 12, (i : ℝ) * 32 + 8, LT⟩ : PathPoint) ::
          (⟨1 + ((item.level : ℝ) - (m : ℝ)) * 12,
            ((i : ℝ) * 32 + 8 + (((i : ℝ) + 1) * 32 - 8)) / 2,
            LT + (((i : ℝ) * 32 + 8 + (((i : ℝ) + 1) * 32 - 8)) / 2 - ((i : ℝ) * 32 + 8))⟩ :
              PathPoint) ::
          (⟨1 + ((item.level : ℝ) - (m : ℝ)) * 12, ((i : ℝ) + 1) * 32 - 8,
            LT + (((i : ℝ) + 1) * 32 - 8 - ((i : ℝ) * 32 + 8))⟩ : PathPoint) :: l1,
        l2, topPt, cenPt, ?_, ?_, ?_, hc8, ?_, ?_, ?_⟩
      · rw [hpts]
        rfl
      · intro q hq
        rcases List.mem_cons.mp hq with rfl | hq'
        · dsimp only
          linarith
        · rcases List.mem_cons.mp hq' with rfl | hq''
          · dsimp only
            linarith
          · rcases List.mem_cons.mp hq'' with rfl | hq3
            · dsimp only
              linarith
            · exact hbd q hq3
      · linarith
      · exact hcx
      · rw [show i + (j' + 1) = i + 1 + j' from by omega]
        exact hcy
      · simpa using hils

/-- Skipping already-passed sample points: if every point of `l` is strictly
before the target, the scan continues past `l` with the last of `l` as the
previous point. -/
theorem scanGo_skip (target : ℝ) (l : List PathPoint) :
    ∀ (prev : PathPoint) (rest : List PathPoint),
    (∀ q ∈ l, ¬ target ≤ q.length) →
    getPointAtLengthGo target prev (l ++ rest) =
      getPointAtLengthGo target (lastD l prev) rest := by
  induction l with
  | nil =>
    intro prev rest h
    simp [lastD]
  | cons q l ih =>
    intro prev rest h
    have hq : ¬ target ≤ q.length := h q (List.mem_cons_self q l)
    rw [List.cons_append, lastD_cons]
    simp only [getPointAtLengthGo, if_neg hq]
    exact ih q rest (fun r hr => h r (List.mem_cons_of_mem q hr))

/-- With strictly increasing sample lengths all below or at the target, the
scan returns the coordinates of the last sample point. -/
theorem scanGo_last (target : ℝ) (l : List PathPoint) :
    ∀ prev : PathPoint,
    List.Pairwise (· < ·) ((prev :: l).map PathPoint.length) →
    (∀ p ∈ prev :: l, p.length ≤ target) →
    getPointAtLengthGo target prev l = ((lastD l prev).x, (lastD l prev).y) := by
  induction l with
  | nil =>
    intro prev _ _
    simp [getPointAtLengthGo, lastD]
  | cons curr rest ih =>
    intro prev hpw hle
    rw [List.map_cons, List.pairwise_cons] at hpw
    obtain ⟨hprevlt, hpw'⟩ := hpw
    by_cases htr : target ≤ curr.length
    · have hcur : curr.length = target :=
        le_antisymm (hle curr (List.mem_cons_of_mem _ (List.mem_cons_self _ _))) htr
      have hrest : rest = [] := by
        cases rest with
        | nil => rfl
        | cons r rs =>
          exfalso
          have h1 : curr.length < r.length := by
            rw [List.map_cons, List.pairwise_cons] at hpw'
            exact hpw'.1 r.length (by simp)
          have h2 : r.length ≤ target :=
            hle r (by simp)
          linarith
      subst hrest
      have hpc : prev.length < curr.length :=
        hprevlt curr.length (by simp)
      simp only [getPointAtLengthGo, if_pos htr]
      have hseg : curr.length - prev.length > 0 := by linarith
      rw [if_pos hseg]
      have ht1 : (target - prev.length) / (curr.length - prev.length) = 1 := by
        rw [hcur]
        exact div_self (by linarith)
      rw [ht1]
      simp [lastD, Prod.ext_iff]
    · simp only [getPointAtLengthGo, if_neg htr, lastD_cons]
      exact ih curr hpw' (fun p hp => hle p (List.mem_cons_of_mem _ hp))

/-- In a strictly increasing list every element is bounded by the last. -/
theorem pairwise_le_lastD (l : List ℝ) :
    ∀ d : ℝ, List.Pairwise (· < ·) l → ∀ x ∈ l, x ≤ lastD l d := by
  induction l with
  | nil =>
    intro d _ x hx
    simp at hx
  | cons a t ih =>
    intro d hpw x hx
    rw [List.pairwise_cons] at hpw
    obtain ⟨ha, hpw'⟩ := hpw
    rw [lastD_cons]
    rcases List.mem_cons.mp hx with rfl | hx'
    · cases t with
      | nil => simp [lastD]
      | cons b t' =>
        have hb := ih x hpw' b (List.mem_cons_self b t')
        have := ha b (List.mem_cons_self b t')
        linarith
    · exact ih a hpw' x hx'

/-- `lastD` agrees with `getLast` on non-empty lists. -/
theorem lastD_eq_getLast : ∀ (l : List α) (d : α) (h : l ≠ []),
    lastD l d = l.getLast h
  | [], _, h => absurd rfl h
  | [a], d, _ => rfl
  | a :: b :: t, d, _ => by
      rw [lastD_cons]
      exact lastD_eq_getLast (b :: t) a (by simp)

/- ### Easy claim theorems -/

/-- C4: `flattenItems` emits items in pre-order depth-first order — the
node itself, then its children (depth + 1) immediately after it, then its
later siblings; the given example tree flattens to the three expected
entries and the empty input yields the empty output. -/
theorem claim_c4 :
    (∀ (n : TocItem) (rest : List TocItem) (level : ℕ),
       flattenItems (n :: rest) level =
         ⟨n.id, n.title, level⟩ ::
           (flattenItems n.children (level + 1) ++ flattenItems rest level)) ∧
    flattenItems
        [.mk "a" "A" [], .mk "b" "B" [.mk "c" "C" []]] 0 =
      [⟨"a", "A", 0⟩, ⟨"b", "B", 0⟩, ⟨"c", "C", 1⟩] ∧
    (∀ level : ℕ, flattenItems [] level = []) := by
  refine ⟨fun n rest level => ?_, ?_, fun level => by simp [flattenItems]⟩
  · cases n with
    | mk i t cs => simp [flattenItems, TocItem.id, TocItem.title, TocItem.children]
  · simp [flattenItems, TocItem.id, TocItem.title, TocItem.children]

/-- C7: on zero items `generatePath` returns an empty path description,
total arc length 0 and no anchor lengths, and `getPointAtLength` on the
empty sample list returns the fixed fallback point `(0, 0)` for every
query length. -/
theorem claim_c7 :
    (∀ minLevel : ℕ, generatePath [] minLevel = ⟨[], 0, [], []⟩) ∧
    (∀ targetLength : ℝ, getPointAtLength [] targetLength = (0, 0)) := by
  exact ⟨fun _ => rfl, fun _ => rfl⟩

/-- C8: when the bracketing pair of the scan has zero length span (equal
cumulative lengths), the interpolation returns the segment's start point —
the guarded ratio is 0, so no division by zero happens. -/
theorem claim_c8 (targetLength : ℝ) (prev curr : PathPoint) (rest : List PathPoint)
    (h1 : targetLength ≤ curr.length) (h2 : curr.length = prev.length) :
    getPointAtLengthGo targetLength prev (curr :: rest) = (prev.x, prev.y) := by
  simp only [getPointAtLengthGo]
  rw [if_pos h1]
  have hseg : ¬ (curr.length - prev.length > 0) := by rw [h2]; simp
  rw [if_neg hseg]
  simp

/-- Witness for C8 at a concrete zero-span segment. -/
theorem claim_c8_witness :
    ((5 : ℝ) ≤ (PathPoint.mk 3 4 5).length ∧
       (PathPoint.mk 3 4 5).length = (PathPoint.mk 1 2 5).length) ∧
    getPointAtLengthGo 5 ⟨1, 2, 5⟩ [⟨3, 4, 5⟩] = (1, 2) := by
  refine ⟨⟨le_refl _, rfl⟩, ?_⟩
  exact claim_c8 5 ⟨1, 2, 5⟩ ⟨3, 4, 5⟩ [] (le_refl _) rfl

/-- C9: an active id that is absent (or matches no item id in the flattened
list) resolves to index 0. -/
theorem claim_c9 (flatItems : List FlatTocItem) (activeId : Option String)
    (h : ∀ s, activeId = some s → ∀ it ∈ flatItems, it.id ≠ s) :
    activeIndexOf flatItems activeId = 0 := by
  cases activeId with
  | none => rfl
  | some s =>
    by_cases hs : s = ""
    · simp [activeIndexOf, hs]
    · have hfind : flatItems.findIdx? (fun item => item.id == s) = none := by
        rw [List.findIdx?_eq_none_iff]
        intro it hit
        simpa using h s rfl it hit
      simp [activeIndexOf, hs, hfind]

/-- Witness for C9: id "zz" does not occur in a one-item list. -/
theorem claim_c9_witness :
    (∀ s, (some "zz" : Option String) = some s →
       ∀ it ∈ [(⟨"a", "A", 0⟩ : FlatTocItem)], it.id ≠ s) ∧
    activeIndexOf [⟨"a", "A", 0⟩] (some "zz") = 0 := by
  have h : ∀ s, (some "zz" : Option String) = some s →
      ∀ it ∈ [(⟨"a", "A", 0⟩ : FlatTocItem)], it.id ≠ s := by
    intro s hs it hit
    cases hs
    simp at hit
    subst hit
    decide
  exact ⟨h, claim_c9 _ _ h⟩

/- ### Remaining helper lemmas -/

theorem sqrt_256 : Real.sqrt 256 = 16 := by
  rw [show (256 : ℝ) = 16 ^ 2 by norm_num]
  exact Real.sqrt_sq (by norm_num)

/-- Querying the path at an anchor length (center length = top length + 8)
lands exactly on the center sample point. -/
theorem getPointAtLength_anchor (l1 l2 : List PathPoint) (topPt cenPt : PathPoint)
    (hbd : ∀ q ∈ l1, q.length ≤ topPt.length)
    (htl : 0 ≤ topPt.length)
    (hc8 : cenPt.length = topPt.length + 8) :
    getPointAtLength (l1 ++ topPt :: cenPt :: l2) cenPt.length = (cenPt.x, cenPt.y) := by
  have hl : l1 ++ topPt :: cenPt :: l2 = (l1 ++ [topPt]) ++ cenPt :: l2 := by simp
  rw [hl]
  obtain ⟨h0, t0, ht0⟩ : ∃ h0 t0, l1 ++ [topPt] = h0 :: t0 := by
    cases hcase : l1 ++ [topPt] with
    | nil => exact absurd hcase (by simp)
    | cons a b => exact ⟨a, b, rfl⟩
  rw [ht0, List.cons_append]
  have hall : ∀ q ∈ l1 ++ [topPt], q.length ≤ topPt.length := by
    intro q hq
    rcases List.mem_append.mp hq with h | h
    · exact hbd q h
    · simp at h
      subst h
      exact le_refl _
  have hpos : ¬ cenPt.length ≤ 0 := by
    rw [hc8]
    intro hcon
    linarith
  simp only [getPointAtLength]
  rw [if_neg hpos]
  have hskip : ∀ q ∈ t0, ¬ cenPt.length ≤ q.length := by
    intro q hq
    have hq2 : q ∈ l1 ++ [topPt] := by
      rw [ht0]
      exact List.mem_cons_of_mem _ hq
    have := hall q hq2
    exact not_le.mpr (by rw [hc8]; linarith)
  rw [scanGo_skip cenPt.length t0 h0 (cenPt :: l2) hskip]
  have hlast : lastD t0 h0 = topPt := by
    have h1 : lastD (h0 :: t0) h0 = topPt := by
      rw [← ht0]
      exact lastD_append_singleton l1 topPt h0
    rw [lastD_cons] at h1
    exact h1
  rw [hlast]
  simp only [getPointAtLengthGo]
  rw [if_pos (le_refl cenPt.length)]
  have hseg : cenPt.length - topPt.length > 0 := by
    rw [hc8]
    linarith
  rw [if_pos hseg]
  have ht1 : (cenPt.length - topPt.length) / (cenPt.length - topPt.length) = 1 :=
    div_self (by linarith)
  rw [ht1]
  simp [Prod.ext_iff]

/-- The fold the observer callback uses picks an element of the candidate
list attaining the minimal `top`. -/
theorem pickTopmost_spec (rest : List ObservedEntry) :
    ∀ e : ObservedEntry, pickTopmost e rest ∈ e :: rest ∧
      ∀ f ∈ e :: rest, (pickTopmost e rest).top ≤ f.top := by
  induction rest with
  | nil =>
    intro e
    constructor
    · simp [pickTopmost]
    · intro f hf
      simp at hf
      subst hf
      exact le_refl _
  | cons c t ih =>
    intro e
    have hstep : pickTopmost e (c :: t) = pickTopmost (if c.top < e.top then c else e) t := rfl
    obtain ⟨hmem, hbd⟩ := ih (if c.top < e.top then c else e)
    constructor
    · rw [hstep]
      rcases List.mem_cons.mp hmem with h | h
      · rw [h]
        split_ifs <;> simp
      · exact List.mem_cons_of_mem _ (List.mem_cons_of_mem _ h)
    · intro f hf
      rw [hstep]
      have hself := hbd (if c.top < e.top then c else e) (List.mem_cons_self _ _)
      rcases List.mem_cons.mp hf with rfl | hf'
      · rcases lt_or_le c.top f.top with hc | hc
        · rw [if_pos hc] at hself ⊢
          linarith
        · rw [if_neg (not_lt.mpr hc)] at hself ⊢
          exact hself
      · rcases List.mem_cons.mp hf' with rfl | hf''
        · rcases lt_or_le f.top e.top with hc | hc
          · rw [if_pos hc] at hself ⊢
            exact hself
          · rw [if_neg (not_lt.mpr hc)] at hself ⊢
            linarith
        · exact hbd f (List.mem_cons_of_mem _ hf'')

/- ### Geometry claim theorems -/

/-- C2: for every non-empty item list the sample-point cumulative lengths
are monotonically non-decreasing, and the returned total arc length equals
the last sample point's cumulative length. -/
theorem claim_c2 (items : List FlatTocItem) (m : ℕ) (hne : items ≠ []) :
    List.Pairwise (· ≤ ·) ((generatePath items m).points.map PathPoint.length) ∧
    lastD ((generatePath items m).points.map PathPoint.length) 0 =
      (generatePath items m).length := by
  simp only [generatePath]
  have hmain := (go_main m items 0 0 0 0 (fun h => absurd rfl h)).1.1
  constructor
  · exact hmain.imp le_of_lt
  · exact (go_length_lastD m items 0 0 0 0).symm

/-- Witness for C2 at a concrete one-item list. -/
theorem claim_c2_witness :
    (([(⟨"a", "A", 0⟩ : FlatTocItem)]) ≠ []) ∧
    (List.Pairwise (· ≤ ·)
        ((generatePath [⟨"a", "A", 0⟩] 0).points.map PathPoint.length) ∧
      lastD ((generatePath [⟨"a", "A", 0⟩] 0).points.map PathPoint.length) 0 =
        (generatePath [⟨"a", "A", 0⟩] 0).length) :=
  ⟨by simp, claim_c2 [⟨"a", "A", 0⟩] 0 (by simp)⟩

/-- C10: with at least two items the anchor lengths are strictly increasing
— consecutive anchors differ by at least twice the vertical inset
(`2 * PADDING = 16`; in fact by 32) — so index ↦ anchor length is injective. -/
theorem claim_c10 (items : List FlatTocItem) (m : ℕ) (h2 : 2 ≤ items.length) :
    List.Chain' (fun a b => a + 2 * PADDING ≤ b) (generatePath items m).itemLengths ∧
    List.Pairwise (· < ·) (generatePath items m).itemLengths := by
  simp only [generatePath]
  have hch := (go_main m items 0 0 0 0 (fun h => absurd rfl h)).2.1
  have h1 : ∀ a b : ℝ, a + 32 ≤ b → a + 2 * PADDING ≤ b := by
    intro a b hab
    rw [PADDING]
    linarith
  have h2 : ∀ a b : ℝ, a + 32 ≤ b → a < b := by
    intro a b hab
    linarith
  constructor
  · exact hch.imp h1
  · exact List.chain'_iff_pairwise.mp (hch.imp h2)

/-- Witness for C10 at a concrete two-item list. -/
theorem claim_c10_witness :
    (2 ≤ ([⟨"a", "A", 0⟩, ⟨"b", "B", 1⟩] : List FlatTocItem).length) ∧
    (List.Chain' (fun a b => a + 2 * PADDING ≤ b)
        (generatePath [⟨"a", "A", 0⟩, ⟨"b", "B", 1⟩] 0).itemLengths ∧
      List.Pairwise (· < ·)
        (generatePath [⟨"a", "A", 0⟩, ⟨"b", "B", 1⟩] 0).itemLengths) :=
  ⟨by simp, claim_c10 [⟨"a", "A", 0⟩, ⟨"b", "B", 1⟩] 0 (by simp)⟩

/-- C3: for every non-empty item list, querying the geometry at length 0
returns the first sample point; at any length at least the total it returns
the last sample point; and at item `j`'s anchor length it returns exactly
item `j`'s center point `(x_j, center_j)`. -/
theorem claim_c3 (items : List FlatTocItem) (m : ℕ) (hne : items ≠ []) :
    getPointAtLength (generatePath items m).points 0 =
      (((generatePath items m).points.headD default).x,
       ((generatePath items m).points.headD default).y) ∧
    (∀ L : ℝ, (generatePath items m).length ≤ L →
      getPointAtLength (generatePath items m).points L =
        ((lastD (generatePath items m).points default).x,
         (lastD (generatePath items m).points default).y)) ∧
    (∀ (j : ℕ) (hj : j < items.length),
      getPointAtLength (generatePath items m).points
          ((generatePath items m).itemLengths.getD j 0) =
        (1 + (((items.get ⟨j, hj⟩).level : ℝ) - (m : ℝ)) * INDENT_STEP,
         (j : ℝ) * ITEM_HEIGHT + ITEM_HEIGHT / 2)) := by
  obtain ⟨item, rest, rfl⟩ : ∃ it r, items = it :: r := by
    cases items with
    | nil => exact absurd rfl hne
    | cons a b => exact ⟨a, b, rfl⟩
  simp only [generatePath]
  have hpw := (go_main m (item :: rest) 0 0 0 0 (fun h => absurd rfl h)).1.1
  refine ⟨?_, ?_, ?_⟩
  · -- length 0 hits the first sample point
    cases hpts : (generatePathGo m (item :: rest) 0 0 0 0).points with
    | nil =>
      exfalso
      have := (go_counts m (item :: rest) 0 0 0 0).1
      rw [hpts] at this
      simp at this
    | cons p tl =>
      simp [getPointAtLength]
  · -- length ≥ total hits the last sample point
    intro L hL
    have htot := go_length_lastD m (item :: rest) 0 0 0 0
    have hfin := go_fin_ge m item rest 0 0 0 0
    cases hpts : (generatePathGo m (item :: rest) 0 0 0 0).points with
    | nil =>
      exfalso
      have := (go_counts m (item :: rest) 0 0 0 0).1
      rw [hpts] at this
      simp at this
    | cons p tl =>
      rw [hpts] at hpw htot
      have hle : ∀ q ∈ p :: tl, q.length ≤ L := by
        intro q hq
        have hmem : q.length ∈ (p :: tl).map PathPoint.length :=
          List.mem_map.mpr ⟨q, hq, rfl⟩
        have := pairwise_le_lastD ((p :: tl).map PathPoint.length) 0 hpw q.length hmem
        rw [← htot] at this
        linarith
      have hpos : (0 : ℝ) < L := by linarith
      simp only [getPointAtLength]
      rw [if_neg (not_le.mpr hpos)]
      rw [lastD_cons]
      exact scanGo_last L tl p hpw hle
  · -- anchor lengths hit the item centers
    intro j hj
    obtain ⟨l1, l2, topPt, cenPt, hpts, hbd, hlen0, hc8, hcx, hcy, hils⟩ :=
      go_anchor m (item :: rest) 0 0 0 0 j hj
    rw [hils, hpts]
    have happ := getPointAtLength_anchor l1 l2 topPt cenPt hbd hlen0 hc8
    rw [hcx, hcy] at happ
    have hy : (j : ℝ) * ITEM_HEIGHT + ITEM_HEIGHT / 2 = ((0 + j : ℕ) : ℝ) * 32 + 16 := by
      rw [ITEM_HEIGHT]
      push_cast
      ring
    rw [hy, show INDENT_STEP = (12 : ℝ) from rfl]
    exact happ

/-- Witness for C3 at a concrete one-item list. -/
theorem claim_c3_witness :
    (([(⟨"a", "A", 0⟩ : FlatTocItem)]) ≠ []) ∧
    (getPointAtLength (generatePath [⟨"a", "A", 0⟩] 0).points 0 =
      (((generatePath [⟨"a", "A", 0⟩] 0).points.headD default).x,
       ((generatePath [⟨"a", "A", 0⟩] 0).points.headD default).y) ∧
    (∀ L : ℝ, (generatePath [⟨"a", "A", 0⟩] 0).length ≤ L →
      getPointAtLength (generatePath [⟨"a", "A", 0⟩] 0).points L =
        ((lastD (generatePath [⟨"a", "A", 0⟩] 0).points default).x,
         (lastD (generatePath [⟨"a", "A", 0⟩] 0).points default).y)) ∧
    (∀ (j : ℕ) (hj : j < ([(⟨"a", "A", 0⟩ : FlatTocItem)]).length),
      getPointAtLength (generatePath [⟨"a", "A", 0⟩] 0).points
          ((generatePath [⟨"a", "A", 0⟩] 0).itemLengths.getD j 0) =
        (1 + (((([(⟨"a", "A", 0⟩ : FlatTocItem)]).get ⟨j, hj⟩).level : ℝ) - ((0 : ℕ) : ℝ)) *
            INDENT_STEP,
         (j : ℝ) * ITEM_HEIGHT + ITEM_HEIGHT / 2))) :=
  ⟨by simp, claim_c3 [⟨"a", "A", 0⟩] 0 (by simp)⟩

/-- C1 counterexample: for the 5-item single-depth list the claimed value of
the arc length at item 4's top sample point (sample index 12) — "4 diagonals
of length rowHeight = 32 each plus 4 internal spans of 16" = 192 — is wrong:
the code yields 128, because an equal-x inter-item diagonal spans only from
the previous item's bottom to this item's top, a distance of 16, not 32. -/
theorem claim_c1_counterexample :
    ((generatePath items5 0).points.getD 12 default).length = 128 ∧
    (128 : ℝ) ≠ 4 * 32 + 4 * 16 := by
  constructor
  · norm_num [items5, generatePath, generatePathGo, ITEM_HEIGHT, PADDING, INDENT_STEP,
      sqrt_256, List.getD_cons_succ, List.getD_cons_zero]
  · norm_num

/-- C1 (amended): for the 5-item single-depth list (`rowHeight = 32`,
`inset = 8`), item 0's top sits at y = 8, its center at y = 16, and its
anchor arc length is 8; the arc length at item 4's top equals the sum of 4
equal-x inter-item diagonals of length 16 each (bottom-to-top, i.e. twice
the inset) plus items 0–3's internal vertical spans of 16 each, i.e. 128;
and item 4's anchor arc length is that top length plus 8, i.e. 136. -/
theorem claim_c1 :
    (generatePath items5 0).itemLengths.getD 0 0 = 8 ∧
    ((generatePath items5 0).points.getD 0 default).y = 8 ∧
    ((generatePath items5 0).points.getD 1 default).y = 16 ∧
    ((generatePath items5 0).points.getD 12 default).length = 4 * 16 + 4 * 16 ∧
    (generatePath items5 0).itemLengths.getD 4 0 =
      ((generatePath items5 0).points.getD 12 default).length + 8 := by
  refine ⟨?_, ?_, ?_, ?_, ?_⟩ <;>
    norm_num [items5, generatePath, generatePathGo, ITEM_HEIGHT, PADDING, INDENT_STEP,
      sqrt_256, List.getD_cons_succ, List.getD_cons_zero]

/- ### Tracker claim theorems -/

/-- C5: with a non-empty id list, whenever the viewport bottom is within
50px of the document bottom, the tracker ends up on the last known section
id no matter which entries the observer reports: the scroll handler selects
the last id and the observer callback leaves it untouched, in either firing
order. -/
theorem claim_c5 (sectionIds : List String) (entries : List ObservedEntry)
    (innerHeight scrollY scrollHeight : ℚ) (activeId : String)
    (hne : sectionIds ≠ [])
    (hb : scrollHeight - 50 ≤ innerHeight + scrollY) :
    handleScroll sectionIds innerHeight scrollY scrollHeight
        (observerCallback entries innerHeight scrollY scrollHeight activeId) =
      sectionIds.getLast hne ∧
    observerCallback entries innerHeight scrollY scrollHeight
        (handleScroll sectionIds innerHeight scrollY scrollHeight activeId) =
      sectionIds.getLast hne := by
  have hl : lastD sectionIds "" = sectionIds.getLast hne :=
    lastD_eq_getLast sectionIds "" hne
  constructor
  · simp only [handleScroll, if_pos hb]
    exact hl
  · simp only [observerCallback, if_pos hb, handleScroll]
    exact hl

/-- Witness for C5: two sections, scrolled to the document bottom. -/
theorem claim_c5_witness :
    ((["a", "b"] : List String) ≠ []) ∧ ((1000 : ℚ) - 50 ≤ 500 + 600) ∧
    (handleScroll ["a", "b"] 500 600 1000
        (observerCallback [] 500 600 1000 "a") =
      (["a", "b"] : List String).getLast (by simp) ∧
    observerCallback [] 500 600 1000
        (handleScroll ["a", "b"] 500 600 1000 "a") =
      (["a", "b"] : List String).getLast (by simp)) :=
  ⟨by simp, by norm_num,
    claim_c5 ["a", "b"] [] 500 600 1000 "a" (by simp) (by norm_num)⟩

/-- C6: when the end-of-document override does not apply, the observer
callback selects an intersecting entry of minimal bounding-rect top if any
entry intersects, and leaves the active id unchanged if none does. -/
theorem claim_c6 (entries : List ObservedEntry)
    (innerHeight scrollY scrollHeight : ℚ) (activeId : String)
    (hb : ¬ (scrollHeight - 50 ≤ innerHeight + scrollY)) :
    ((entries.filter (fun entry => entry.isIntersecting)) ≠ [] →
      ∃ e ∈ entries, e.isIntersecting = true ∧
        (∀ f ∈ entries, f.isIntersecting = true → e.top ≤ f.top) ∧
        observerCallback entries innerHeight scrollY scrollHeight activeId =
          e.targetId) ∧
    ((entries.filter (fun entry => entry.isIntersecting)) = [] →
      observerCallback entries innerHeight scrollY scrollHeight activeId =
        activeId) := by
  constructor
  · intro hv
    obtain ⟨e0, rest0, hfil⟩ : ∃ e0 rest0,
        entries.filter (fun entry => entry.isIntersecting) = e0 :: rest0 := by
      cases hcase : entries.filter (fun entry => entry.isIntersecting) with
      | nil => exact absurd hcase hv
      | cons a b => exact ⟨a, b, rfl⟩
    obtain ⟨hmem, hbd⟩ := pickTopmost_spec rest0 e0
    rw [← hfil] at hmem
    refine ⟨pickTopmost e0 rest0, ?_, ?_, ?_, ?_⟩
    · exact (List.mem_filter.mp hmem).1
    · simpa using (List.mem_filter.mp hmem).2
    · intro f hf hfi
      have hffil : f ∈ entries.filter (fun entry => entry.isIntersecting) :=
        List.mem_filter.mpr ⟨hf, by simpa using hfi⟩
      rw [hfil] at hffil
      exact hbd f hffil
    · simp only [observerCallback, if_neg hb, hfil]
  · intro hv
    simp only [observerCallback, if_neg hb, hv]

/-- Witness for C6: two intersecting entries, not at the document bottom. -/
theorem claim_c6_witness :
    (¬ ((1000 : ℚ) - 50 ≤ 300 + 100)) ∧
    ((([⟨true, 100, "x"⟩, ⟨true, 50, "y"⟩] :
          List ObservedEntry).filter (fun entry => entry.isIntersecting)) ≠ [] →
      ∃ e ∈ ([⟨true, 100, "x"⟩, ⟨true, 50, "y"⟩] : List ObservedEntry),
        e.isIntersecting = true ∧
        (∀ f ∈ ([⟨true, 100, "x"⟩, ⟨true, 50, "y"⟩] : List ObservedEntry),
          f.isIntersecting = true → e.top ≤ f.top) ∧
        observerCallback [⟨true, 100, "x"⟩, ⟨true, 50, "y"⟩] 300 100 1000 "a" =
          e.targetId) ∧
    ((([⟨true, 100, "x"⟩, ⟨true, 50, "y"⟩] :
          List ObservedEntry).filter (fun entry => entry.isIntersecting)) = [] →
      observerCallback [⟨true, 100, "x"⟩, ⟨true, 50, "y"⟩] 300 100 1000 "a" =
        "a") :=
  ⟨by norm_num,
    claim_c6 [⟨true, 100, "x"⟩, ⟨true, 50, "y"⟩] 300 100 1000 "a" (by norm_num)⟩
